import Mathlib

/-!
# hornet-storage: DAG transfer handlers and the graviton leaf store

A shallow embedding of `lib/handlers/handlers.go`,
`lib/stores/graviton/graviton.go` and the reaction check of
`lib/handlers/nostr/kind7/kind7handler.go`, followed by the properties proved
about it.

Conventions of the embedding:

* a Go `string` and a Go `[]byte` are both a sequence of byte values (`Bytes`);
  the conversions `[]byte(s)` and `string(b)` are the identity;
* a Go pointer or slice that may be `nil` is an `Option`;
* a Go `error` result is `none` / an `Except` error, or a `Bool` flag where only
  `err != nil` is inspected;
* a session handler returns the trace of the externally visible actions it
  performed, in order.
-/

namespace Hornet

/-! ## Strings and the Go standard library -/

/-- A Go `string` or `[]byte`: the sequence of its byte values. The values are
not bounded by 256 here; no definition depends on the bound. -/
abbrev Bytes := List Nat

/-- The bytes of an ASCII string literal. -/
def lit (s : String) : Bytes := s.toList.map Char.toNat

/-- Go `strings.Split(s, sep)` for a one-byte separator `sep`: the pieces of `s`
between the occurrences of `sep`; always at least one piece. -/
def Split (sep : Nat) : Bytes → List Bytes
  | [] => [[]]
  | c :: cs =>
    if c = sep then [] :: Split sep cs
    else
      match Split sep cs with
      | [] => [[c]]
      | p :: ps => (c :: p) :: ps

/-- Go `strings.HasPrefix(s, p)`. -/
def HasPrefix (s p : Bytes) : Bool := p.isPrefixOf s

/-- The byte is an ASCII decimal digit. -/
def isDigit (c : Nat) : Bool := decide (48 ≤ c) && decide (c ≤ 57)

/-- The value of a run of decimal digits. -/
def digitsValue (ds : Bytes) : Nat := ds.foldl (fun acc d => acc * 10 + (d - 48)) 0

/-- Go `strconv.Atoi` on a 64-bit platform: an optional sign followed by one or
more decimal digits, whose value fits an `int`; `none` stands for a non-nil
error (syntax or range). -/
def Atoi (s : Bytes) : Option Int :=
  match s with
  | [] => none
  | c :: cs =>
    let neg : Bool := decide (c = 45)
    let ds : Bytes := if c = 45 ∨ c = 43 then cs else s
    if ds = [] then none
    else if ds.all isDigit then
      let v : Int := if neg then -(digitsValue ds : Int) else (digitsValue ds : Int)
      if -(2 : Int) ^ 63 ≤ v ∧ v ≤ (2 : Int) ^ 63 - 1 then some v else none
    else none

/-! ## Data model -/

/-- The leaf type tag `merkle_dag.DirectoryLeafType`. -/
def DirectoryLeafType : Bytes := lit "directory"

/-- The fields of `merkle_dag.DagLeaf` that the handlers and the store read or
write. `Links` is a Go map from label to child hash, `AdditionalData` a Go map
from key to value; both are association lists read with `List.lookup`. -/
structure DagLeaf where
  Hash : Bytes
  ItemName : Bytes
  LeafType : Bytes
  ContentHash : Option Bytes
  Content : Option Bytes
  Links : List (Bytes × Bytes)
  LeafCount : Int
  AdditionalData : List (Bytes × Bytes)
  deriving DecidableEq, Repr

/-- One entry of `DownloadFilter.LeafRanges`. -/
structure LeafRange where
  From : Bytes
  To : Bytes
  deriving DecidableEq, Repr

/-- The type `lib.DownloadFilter`. -/
structure DownloadFilter where
  Leaves : List Bytes
  LeafRanges : List LeafRange
  IncludeContent : Bool
  deriving DecidableEq, Repr

/-! ## `GetBucket` (graviton.go) -/

/-- The function `GetBucket` of graviton.go. -/
def GetBucket (leaf : DagLeaf) : Bytes :=
  let byName : Bytes :=
    let split := Split 46 leaf.ItemName
    if split.length > 1 then split.getD 1 []
    else if leaf.LeafType = DirectoryLeafType then lit "directory"
    else lit "file"
  match leaf.AdditionalData.lookup (lit "hkind") with
  | some hkind => if hkind ≠ lit "1" then lit "hkind:" ++ hkind else byName
  | none => byName

/-- The function `GetKindFromItemName` of graviton.go: the last of the pieces of
the item name between its "." bytes. -/
def GetKindFromItemName (itemName : Bytes) : Bytes :=
  ((Split 46 itemName).getLast?).getD []

/-! ## `CheckFilter` (handlers.go) -/

/-- The range loop of `CheckFilter`: an entry whose bounds do not both parse is
skipped; the first entry containing `labelInt` answers true. -/
def rangeLoop (labelInt : Int) : List LeafRange → Bool
  | [] => false
  | rangeItem :: rest =>
    match Atoi rangeItem.From with
    | none => rangeLoop labelInt rest
    | some fromInt =>
      match Atoi rangeItem.To with
      | none => rangeLoop labelInt rest
      | some toInt =>
        if labelInt ≥ fromInt ∧ labelInt ≤ toInt then true
        else rangeLoop labelInt rest

/-- The function `CheckFilter` of handlers.go; `GetLabel` is
`merkle_dag.GetLabel`. The result is the returned boolean and whether the
returned error is non-nil. -/
def CheckFilter (GetLabel : Bytes → Bytes) (leaf : DagLeaf) (filter : DownloadFilter) :
    Bool × Bool :=
  let label := GetLabel leaf.Hash
  if filter.Leaves.contains label then (true, false)
  else
    match Atoi label with
    | none => (false, true)
    | some labelInt => (rangeLoop labelInt filter.LeafRanges, false)

/-! ## The graviton key-value engine

The library `github.com/deroproject/graviton` is not part of the repository. It
is modelled as a reliable versioned key-value engine: `LoadSnapshot(0)` yields
the latest committed state, `GetTree` yields a private working copy of one named
tree (an empty tree when the name was never written), `Put` and `Get` act on the
working copy, and `Commit` publishes the working copies it is given, in order.
The committed trees share one key space: besides its name, the engine stores a
committed tree under further keys (graviton: the name followed by the new
version number of the tree), and `GetTree` of a name equal to such a key finds
that tree. The only failures modelled are the engine refusing a tree name, a key
or a value (its size limits) and `Get` on an absent key. -/

/-- One tree of the engine: key to value. -/
abbrev Tree := Bytes → Option Bytes

/-- The latest committed snapshot: tree name to tree. -/
abbrev Database := Bytes → Tree

/-- The tree without any key. -/
def emptyTree : Tree := fun _ => none

/-- The snapshot of a freshly created store. -/
def emptyDatabase : Database := fun _ => emptyTree

/-- The errors of the leaf store. -/
inductive StoreError
  /-- "leaf has content hash but no content" -/
  | contentIntegrity
  /-- `GetTree` refused the tree name -/
  | treeName
  /-- `Put` refused the key or the value -/
  | put
  /-- `Get` did not find the key -/
  | notFound
  /-- `cbor.Unmarshal` failed -/
  | decode
  /-- "content not found" -/
  | contentNotFound
  /-- a run-time panic (`reflect.Value.FieldByName` on a pointer value) -/
  | panic
  deriving DecidableEq, Repr

/-- The rules of the engine: which tree names `GetTree` accepts, which keys and
values `Put` accepts, and under which further keys of the key space of the tree
names a commit stores the tree of a given name, in a given committed state
(`versionKeys`; graviton: the name followed by the version number the tree gets
in this commit, so each of these keys starts with the name). Every accepted tree
name is short enough to be an accepted value (graviton: names up to 127 bytes,
values up to 100 MiB). -/
structure Engine where
  treeNameOk : Bytes → Bool
  keyOk : Bytes → Bool
  valueOk : Bytes → Bool
  versionKeys : Database → Bytes → List Bytes
  name_is_value : ∀ n, treeNameOk n = true → valueOk n = true
  versionKeys_extend : ∀ db n k, k ∈ versionKeys db n → HasPrefix k n = true

/-- A working copy of a tree, `*graviton.Tree`. -/
structure TreeHandle where
  name : Bytes
  data : Tree

/-- The call `snapshot.GetTree(name)`. -/
def GetTree (E : Engine) (snapshot : Database) (name : Bytes) : Except StoreError TreeHandle :=
  if E.treeNameOk name then .ok ⟨name, snapshot name⟩ else .error .treeName

/-- The call `tree.Put(key, value)`. -/
def TreeHandle.Put (E : Engine) (t : TreeHandle) (key value : Bytes) :
    Except StoreError TreeHandle :=
  if E.keyOk key && E.valueOk value then
    .ok { t with data := Function.update t.data key (some value) }
  else .error .put

/-- The call `tree.Put(key, value)` whose error result is not inspected. -/
def TreeHandle.PutIgnore (E : Engine) (t : TreeHandle) (key value : Bytes) : TreeHandle :=
  match t.Put E key value with
  | .ok t' => t'
  | .error _ => t

/-- The call `tree.Get(key)`. -/
def TreeHandle.Get (t : TreeHandle) (key : Bytes) : Except StoreError Bytes :=
  match t.data key with
  | some value => .ok value
  | none => .error .notFound

/-- One working copy is committed: it replaces what the key space holds under
its name and under its version keys. `snapshot` is the committed state the
working copies were taken from. -/
def writeTree (E : Engine) (snapshot : Database) (d : Database) (t : TreeHandle) : Database :=
  (E.versionKeys snapshot t.name).foldl (fun d k => Function.update d k t.data)
    (Function.update d t.name t.data)

/-- The call `graviton.Commit(trees...)`: the working copies are committed in
the order given, a later one replacing what an earlier one stored under the
same key. -/
def Commit (E : Engine) (db : Database) (trees : List TreeHandle) : Database :=
  trees.foldl (writeTree E db) db

/-! ## The leaf store (graviton.go) -/

/-- The fields of `types.DagLeafData` used by the store. -/
structure DagLeafData where
  PublicKey : Bytes
  Signature : Bytes
  Leaf : DagLeaf
  deriving DecidableEq, Repr

/-- The type `types.CacheData`. -/
structure CacheData where
  Keys : List Bytes
  deriving DecidableEq, Repr

/-- The CBOR serialisation (`github.com/fxamacker/cbor`, not part of the
repository) of the two stored record types: decoding an encoded record gives the
record back. Encoding these record types does not fail. -/
structure Codec where
  marshalLeaf : DagLeafData → Bytes
  unmarshalLeaf : Bytes → Option DagLeafData
  marshalCache : CacheData → Bytes
  unmarshalCache : Bytes → Option CacheData
  leaf_roundtrip : ∀ d, unmarshalLeaf (marshalLeaf d) = some d
  cache_roundtrip : ∀ c, unmarshalCache (marshalCache c) = some c

/-- The type `GravitonStore` without its database handle (the committed state is
passed to every operation) and without the relational statistics side index. -/
structure GravitonStore where
  engine : Engine
  codec : Codec
  CacheConfig : List (Bytes × Bytes)

/-- The method `RetrieveLeafContent`. -/
def RetrieveLeafContent (st : GravitonStore) (db : Database) (contentHash : Bytes) :
    Except StoreError Bytes :=
  match GetTree st.engine db (lit "content") with
  | .error e => .error e
  | .ok contentTree =>
    match contentTree.Get contentHash with
    | .error e => .error e
    | .ok bytes => if bytes.length > 0 then .ok bytes else .error .contentNotFound

/-- The method `retrieveBucket`. -/
def retrieveBucket (st : GravitonStore) (db : Database) (root : Bytes) :
    Except StoreError Bytes :=
  match GetTree st.engine db (lit "root_index") with
  | .error e => .error e
  | .ok tree => tree.Get root

/-- The method `RetrieveLeaf`. -/
def RetrieveLeaf (st : GravitonStore) (db : Database) (root hash : Bytes)
    (includeContent : Bool) : Except StoreError DagLeafData :=
  let key := hash
  match retrieveBucket st db root with
  | .error e => .error e
  | .ok bucket =>
    match GetTree st.engine db bucket with
    | .error e => .error e
    | .ok tree =>
      match tree.Get key with
      | .error e => .error e
      | .ok bytes =>
        match st.codec.unmarshalLeaf bytes with
        | none => .error .decode
        | some data =>
          match includeContent, data.Leaf.ContentHash with
          | true, some contentHash =>
            match RetrieveLeafContent st db contentHash with
            | .error e => .error e
            | .ok content => .ok { data with Leaf := { data.Leaf with Content := some content } }
          | _, _ => .ok data

/-- The method `cacheKey`: the working copies it wrote to. A value found by `Get`
counts as non-nil; when the stored value does not decode, the list written back
is the empty one. -/
def cacheKey (st : GravitonStore) (db : Database) (bucket key root : Bytes) :
    List TreeHandle :=
  if HasPrefix bucket (lit "npub") then
    match GetTree st.engine db bucket with
    | .error _ => []
    | .ok userTree =>
      match userTree.Get key with
      | .ok value =>
        let cacheData : CacheData :=
          match st.codec.unmarshalCache value with
          | some cd => { cd with Keys := cd.Keys ++ [root] }
          | none => { Keys := [] }
        [userTree.PutIgnore st.engine bucket (st.codec.marshalCache cacheData)]
      | .error _ =>
        [userTree.PutIgnore st.engine bucket (st.codec.marshalCache { Keys := [] })]
  else if (st.CacheConfig.lookup bucket).isSome then
    match GetTree st.engine db (lit "cache:" ++ bucket) with
    | .error _ => []
    | .ok cacheTree => [cacheTree.PutIgnore st.engine key root]
  else []

/-- The working copies a root leaf adds to the commit (the block of `StoreLeaf`
guarded by `rootLeaf.Hash == leafData.Leaf.Hash`). A bucket with a configured
cache field makes `reflect.ValueOf(rootLeaf).FieldByName` panic, `rootLeaf`
being a pointer. -/
def rootTrees (st : GravitonStore) (db : Database) (root bucket : Bytes)
    (leafData : DagLeafData) : Except StoreError (List TreeHandle) :=
  match GetTree st.engine db (lit "root_index") with
  | .error e => .error e
  | .ok indexTree =>
    let indexTree := indexTree.PutIgnore st.engine root bucket
    let owner : List TreeHandle :=
      if HasPrefix leafData.PublicKey (lit "npub") then
        cacheKey st db leafData.PublicKey bucket root
      else []
    if (st.CacheConfig.lookup bucket).isSome then .error .panic
    else .ok (indexTree :: owner)

/-- The content step of `StoreLeaf`: inline content is put into the tree
"content" under the content hash. -/
def contentStep (st : GravitonStore) (db : Database) (leaf : DagLeaf) :
    Except StoreError (Option TreeHandle) :=
  match leaf.Content with
  | none => .ok none
  | some content =>
    match GetTree st.engine db (lit "content") with
    | .error e => .error e
    | .ok contentTree =>
      match contentTree.Put st.engine (leaf.ContentHash.getD []) content with
      | .error e => .error e
      | .ok contentTree => .ok (some contentTree)

/-- The method `StoreLeaf`; the result is the committed state after the call. -/
def StoreLeaf (st : GravitonStore) (db : Database) (root : Bytes) (leafData : DagLeafData) :
    Except StoreError Database :=
  if leafData.Leaf.ContentHash.isSome ∧ leafData.Leaf.Content.isNone then
    .error .contentIntegrity
  else
    match contentStep st db leafData.Leaf with
    | .error e => .error e
    | .ok contentTree =>
      let leafData : DagLeafData := { leafData with Leaf := { leafData.Leaf with Content := none } }
      let rootLeaf? : Except StoreError DagLeaf :=
        if leafData.Leaf.Hash = root then .ok leafData.Leaf
        else
          match RetrieveLeaf st db root root false with
          | .error e => .error e
          | .ok r => .ok r.Leaf
      match rootLeaf? with
      | .error e => .error e
      | .ok rootLeaf =>
        let bucket := GetBucket rootLeaf
        let cborData := st.codec.marshalLeaf leafData
        let key := leafData.Leaf.Hash
        match GetTree st.engine db bucket with
        | .error e => .error e
        | .ok tree =>
          match tree.Put st.engine key cborData with
          | .error e => .error e
          | .ok tree =>
            let extra : Except StoreError (List TreeHandle) :=
              if rootLeaf.Hash = leafData.Leaf.Hash then rootTrees st db root bucket leafData
              else .ok []
            match extra with
            | .error e => .error e
            | .ok extra =>
              .ok (Commit st.engine db (tree :: extra ++ contentTree.toList))

/-! ## Protocol messages and the collaborators of the session handlers -/

/-- The type `merkle_dag.ClassicTreeBranch`, a branch proof. The handlers only
pass it on, so it is carried as the bytes of the proof. -/
structure ClassicTreeBranch where
  Proof : Bytes
  deriving DecidableEq, Repr

/-- The type `lib.UploadMessage`. -/
structure UploadMessage where
  Root : Bytes
  Count : Int
  Leaf : DagLeaf
  Parent : Bytes
  Branch : Option ClassicTreeBranch
  PublicKey : Bytes
  Signature : Bytes
  deriving DecidableEq, Repr

/-- The type `lib.DownloadMessage`. -/
structure DownloadMessage where
  Root : Bytes
  PublicKey : Bytes
  Signature : Bytes
  Filter : Option DownloadFilter
  deriving DecidableEq, Repr

/-- The fields of `merkle_dag.Dag` the handlers read: the root hash and the
leaves by hash. -/
structure Dag where
  Root : Bytes
  Leafs : List (Bytes × DagLeaf)
  deriving DecidableEq, Repr

/-- An externally visible action of a session handler. -/
inductive Event
  /-- `WriteErrorToStream` was called with this message text (the write itself is
  best effort, its result is never inspected) -/
  | errorMessage (text : String)
  /-- `WriteResponseToStream` wrote a `ResponseMessage` -/
  | responseMessage (ok : Bool)
  /-- an `UploadMessage` was encoded onto the stream -/
  | uploadMessage (m : UploadMessage)
  /-- `stream.Close()` -/
  | close
  /-- `store.StoreLeaf(root, leaf)` was called -/
  | storeLeaf (root : Bytes) (leaf : DagLeaf)
  /-- `store.RetrieveLeaf(root, hash, includeContent)` was called -/
  | retrieveLeaf (root hash : Bytes) (includeContent : Bool)
  /-- `store.BuildDagFromStore(root, includeContent)` was called -/
  | buildDag (root : Bytes) (includeContent : Bool)
  /-- `parent.GetBranch(label)` was called -/
  | getBranch (parent : DagLeaf) (label : Bytes)
  /-- `handleRecievedDag(dag, publicKey)` was called -/
  | handleRecievedDag (dag : Dag) (publicKey : Bytes)
  /-- the handler dereferenced a nil pointer -/
  | nilDereference
  deriving DecidableEq, Repr

/-- Everything a session handler calls that is not defined in handlers.go: the
Merkle library, the store behind the `stores.Store` interface (with its state
`σ`), the injected predicates, and the stream. A verification function answers
true when the Go method returns a nil error; `GetBranch` answers `none` for a
non-nil error and otherwise the returned pointer. `IterateDag` lists the pairs
(leaf, parent) its callback is invoked with, in order, the traversal stopping
at the first callback error; `IterateDagFails` says whether the traversal
reports an error of its own after these visits (a linked leaf missing from the
DAG). The stream functions say whether the n-th write succeeds and what the n-th
`WaitForResponse` returns. -/
structure Collaborators (σ : Type) where
  VerifyRootLeaf : DagLeaf → Bool
  VerifyLeaf : DagLeaf → Bool
  VerifyBranch : DagLeaf → Option ClassicTreeBranch → Bool
  GetBranch : DagLeaf → Bytes → Option (Option ClassicTreeBranch)
  GetLabel : Bytes → Bytes
  Verify : Dag → Bool
  IterateDag : Dag → List (DagLeaf × Option DagLeaf)
  IterateDagFails : Dag → Bool
  StoreLeaf : σ → Bytes → DagLeaf → Option σ
  RetrieveLeaf : σ → Bytes → Bytes → Bool → Option DagLeaf
  BuildDagFromStore : σ → Bytes → Bool → Option Dag
  canUploadDag : DagLeaf → Bytes → Bytes → Bool
  canDownloadDag : DagLeaf → Bytes → Bytes → Bool
  WriteResponseOk : Nat → Bool
  EncodeOk : Nat → Bool
  WaitForResponse : Nat → Bool

/-! ## The upload session (handlers.go, `BuildUploadStreamHandler`) -/

/-- The result of running an upload session: the actions performed and the
state of the store afterwards. -/
structure Run (σ : Type) where
  trace : List Event
  store : σ

/-- The run that first performs `pre`. -/
def Run.after {σ : Type} (pre : List Event) (r : Run σ) : Run σ :=
  ⟨pre ++ r.trace, r.store⟩

/-- The statements after the receive loop (lines 140-162): rebuild the DAG of
the first message's root, verify it, hand it over. -/
def uploadFinalize {σ : Type} (K : Collaborators σ) (first : UploadMessage) (s : σ) : Run σ :=
  match K.BuildDagFromStore s first.Root true with
  | none =>
    ⟨[.buildDag first.Root true,
      .errorMessage "Failed to build dag from provided leaves: %e", .close], s⟩
  | some dag =>
    if K.Verify dag then
      ⟨[.buildDag first.Root true, .handleRecievedDag dag first.PublicKey, .close], s⟩
    else
      ⟨[.buildDag first.Root true, .errorMessage "Failed to verify dag: %e", .close], s⟩

/-- The receive loop (lines 80-138) followed by the statements after it. The
incoming messages are the ones `WaitForUploadMessage` still returns; when none
is left it reports a timeout. A `break` continues with `uploadFinalize`, a
`return` ends the run. `leafCount` is the source's counter, also the index of
the next response written. -/
def uploadLoop {σ : Type} (K : Collaborators σ) (first : UploadMessage) :
    σ → Nat → List UploadMessage → Run σ
  | s, _, [] =>
    (uploadFinalize K first s).after
      [.errorMessage "Failed to recieve upload message in time", .close]
  | s, leafCount, message :: rest =>
    if ¬ K.VerifyLeaf message.Leaf then
      (uploadFinalize K first s).after [.errorMessage "Failed to verify leaf", .close]
    else
      match K.RetrieveLeaf s message.Root message.Parent false with
      | none =>
        (uploadFinalize K first s).after
          [.retrieveLeaf message.Root message.Parent false,
           .errorMessage "Failed to find parent leaf", .close]
      | some parent =>
        if message.Branch.isSome ∧ ¬ K.VerifyBranch parent message.Branch then
          (uploadFinalize K first s).after
            [.retrieveLeaf message.Root message.Parent false,
             .errorMessage "Failed to verify leaf branch", .close]
        else
          match K.StoreLeaf s message.Root message.Leaf with
          | none =>
            ⟨[.retrieveLeaf message.Root message.Parent false,
              .storeLeaf message.Root message.Leaf,
              .errorMessage "Failed to add leaf to block database", .close], s⟩
          | some s' =>
            if K.WriteResponseOk leafCount then
              (uploadLoop K first s' (leafCount + 1) rest).after
                [.retrieveLeaf message.Root message.Parent false,
                 .storeLeaf message.Root message.Leaf, .responseMessage true]
            else
              (uploadFinalize K first s').after
                [.retrieveLeaf message.Root message.Parent false,
                 .storeLeaf message.Root message.Leaf, .close]

/-- The function `uploadStreamHandler` built by `BuildUploadStreamHandler`, run
on the store state `s` and the messages the peer sends. -/
def uploadStreamHandler {σ : Type} (K : Collaborators σ) (s : σ)
    (incoming : List UploadMessage) : Run σ :=
  match incoming with
  | [] => ⟨[.errorMessage "Failed to recieve upload message in time", .close], s⟩
  | message :: rest =>
    if ¬ K.VerifyRootLeaf message.Leaf then
      ⟨[.errorMessage "Failed to verify root leaf", .close], s⟩
    else if ¬ K.canUploadDag message.Leaf message.PublicKey message.Signature then
      ⟨[.errorMessage "Not allowed to upload this", .close], s⟩
    else
      match K.StoreLeaf s message.Root message.Leaf with
      | none =>
        ⟨[.storeLeaf message.Root message.Leaf,
          .errorMessage "Failed to verify root leaf", .close], s⟩
      | some s' =>
        if K.WriteResponseOk 0 then
          (uploadLoop K message s' 1 rest).after
            [.storeLeaf message.Root message.Leaf, .responseMessage true]
        else ⟨[.storeLeaf message.Root message.Leaf, .close], s'⟩

/-! ## The download session (handlers.go, `BuildDownloadStreamHandler`) -/

/-- What a callback invocation or the traversal ends with: a nil error, a
non-nil error, or a panic. -/
inductive Outcome
  | ok
  | failed
  | panicked
  deriving DecidableEq, Repr

/-- The variables the traversal callbacks share: how many `UploadMessage`s were
written so far and the captured variable `result`. -/
structure IterState where
  sent : Nat
  result : Bool
  deriving DecidableEq, Repr

/-- One invocation of a traversal callback. -/
structure Step where
  events : List Event
  outcome : Outcome
  state : IterState

/-- The `UploadMessage` the callbacks build for the root. -/
def rootMessage (dag : Dag) (count : Int) (rootLeaf : DagLeaf) : UploadMessage :=
  { Root := dag.Root, Count := count, Leaf := rootLeaf, Parent := [], Branch := none,
    PublicKey := [], Signature := [] }

/-- The `UploadMessage` the callbacks build for a leaf other than the root. -/
def leafMessage (dag : Dag) (count : Int) (leaf parent : DagLeaf)
    (branch : Option ClassicTreeBranch) : UploadMessage :=
  { Root := dag.Root, Count := count, Leaf := leaf, Parent := parent.Hash, Branch := branch,
    PublicKey := [], Signature := [] }

/-- The callback of the unfiltered traversal (lines 323-391). -/
def unfilteredCallback {σ : Type} (K : Collaborators σ) (dag : Dag) (count : Int)
    (rootLeaf : DagLeaf) (st : IterState) (leaf : DagLeaf) (parent : Option DagLeaf) : Step :=
  if leaf.Hash = dag.Root then
    if ¬ K.VerifyRootLeaf leaf then ⟨[], .failed, st⟩
    else if ¬ K.EncodeOk st.sent then ⟨[], .failed, st⟩
    else
      -- `if result := WaitForResponse(stream); !result { return err }`: `err` is the
      -- nil result of `VerifyRootLeaf`, so both cases return nil
      if ¬ K.WaitForResponse st.sent then
        ⟨[.uploadMessage (rootMessage dag count rootLeaf)], .ok, { st with sent := st.sent + 1 }⟩
      else
        ⟨[.uploadMessage (rootMessage dag count rootLeaf)], .ok, { st with sent := st.sent + 1 }⟩
  else
    if ¬ K.VerifyLeaf leaf then ⟨[], .failed, st⟩
    else
      let label := K.GetLabel leaf.Hash
      match parent with
      | none => ⟨[], .panicked, st⟩
      | some parent =>
        let send (pre : List Event) (branch : Option ClassicTreeBranch) : Step :=
          if ¬ K.EncodeOk st.sent then ⟨pre, .failed, st⟩
          else
            let result := K.WaitForResponse st.sent
            if ¬ result then
              ⟨pre ++ [.uploadMessage (leafMessage dag count leaf parent branch)], .failed,
                { sent := st.sent + 1, result := result }⟩
            else
              ⟨pre ++ [.uploadMessage (leafMessage dag count leaf parent branch)], .ok,
                { sent := st.sent + 1, result := result }⟩
        if leaf.Links.length > 1 then
          match K.GetBranch parent label with
          | none => ⟨[.getBranch parent label], .failed, st⟩
          | some branch =>
            if ¬ K.VerifyBranch parent branch then ⟨[.getBranch parent label], .failed, st⟩
            else send [.getBranch parent label] branch
        else send [] none

/-- The callback of the filtered traversal (lines 230-314). -/
def filteredCallback {σ : Type} (K : Collaborators σ) (dag : Dag) (count : Int)
    (rootLeaf : DagLeaf) (filter : DownloadFilter) (st : IterState) (leaf : DagLeaf)
    (parent : Option DagLeaf) : Step :=
  if leaf.Hash = dag.Root then
    if ¬ K.VerifyRootLeaf leaf then ⟨[], .failed, st⟩
    else
      -- `leaf.Content = nil` acts on the leaf of the DAG; the message carries `*rootLeaf`
      if ¬ K.EncodeOk st.sent then ⟨[], .failed, st⟩
      else
        -- `return err` with the nil `err` of `VerifyRootLeaf`
        if ¬ K.WaitForResponse st.sent then
          ⟨[.uploadMessage (rootMessage dag count rootLeaf)], .ok, { st with sent := st.sent + 1 }⟩
        else
          ⟨[.uploadMessage (rootMessage dag count rootLeaf)], .ok, { st with sent := st.sent + 1 }⟩
  else
    let (valid, err) := CheckFilter K.GetLabel leaf filter
    if err ∧ valid then
      let leaf : DagLeaf := if ¬ filter.IncludeContent then { leaf with Content := none } else leaf
      if ¬ K.VerifyLeaf leaf then ⟨[], .failed, st⟩
      else
        let label := K.GetLabel leaf.Hash
        match parent with
        | none => ⟨[], .panicked, st⟩
        | some parent =>
          let send (pre : List Event) (branch : Option ClassicTreeBranch) : Step :=
            if ¬ K.EncodeOk st.sent then ⟨pre, .failed, st⟩
            else
              -- `return err` with the nil `err` of the verifications above
              let result := K.WaitForResponse st.sent
              ⟨pre ++ [.uploadMessage (leafMessage dag count leaf parent branch)], .ok,
                { sent := st.sent + 1, result := result }⟩
          if leaf.Links.length > 1 then
            match K.GetBranch parent label with
            | none => ⟨[.getBranch parent label], .failed, st⟩
            | some branch =>
              if ¬ K.VerifyBranch parent branch then ⟨[.getBranch parent label], .failed, st⟩
              else if ¬ st.result then ⟨[.getBranch parent label], .ok, st⟩
              else send [.getBranch parent label] branch
          else send [] none
    else ⟨[], .ok, st⟩

/-- The traversal `dag.IterateDag(callback)`: the callback runs on the visits in
order until it returns a non-nil error or panics; `fails` says whether the
traversal reports an error of its own once the visits are done. -/
def iterate (callback : IterState → DagLeaf → Option DagLeaf → Step) (fails : Bool) :
    IterState → List (DagLeaf × Option DagLeaf) → List Event × Outcome
  | _, [] => ([], if fails then .failed else .ok)
  | st, (leaf, parent) :: rest =>
    let step := callback st leaf parent
    match step.outcome with
    | .ok => ((step.events ++ (iterate callback fails step.state rest).1),
              (iterate callback fails step.state rest).2)
    | o => (step.events, o)

/-- The function `downloadStreamHandler` built by `BuildDownloadStreamHandler`,
run on the store state `s` and the request `WaitForDownloadMessage` returns
(`none` when it reports a timeout). The test `if !result` of line 197 is never
taken, `result` being true there. -/
def downloadStreamHandler {σ : Type} (K : Collaborators σ) (s : σ)
    (incoming : Option DownloadMessage) : List Event :=
  match incoming with
  | none => [.errorMessage "Failed to recieve upload message in time", .close]
  | some message =>
    match K.RetrieveLeaf s message.Root message.Root true with
    | none =>
      [.retrieveLeaf message.Root message.Root true,
       .errorMessage "Node does not have root leaf", .close]
    | some rootLeaf =>
      if ¬ K.VerifyRootLeaf rootLeaf then
        [.retrieveLeaf message.Root message.Root true,
         .errorMessage "Error occured when trying to verify root leaf", .close]
      else if ¬ K.canDownloadDag rootLeaf message.PublicKey message.Signature then
        [.retrieveLeaf message.Root message.Root true,
         .errorMessage "Not allowed to download this", .close]
      else
        match K.BuildDagFromStore s message.Root true with
        | none =>
          [.retrieveLeaf message.Root message.Root true, .buildDag message.Root true,
           .errorMessage "Failed to build dag from root %e", .close]
        | some dag =>
          let count : Int := dag.Leafs.length
          let callback : IterState → DagLeaf → Option DagLeaf → Step :=
            match message.Filter with
            | some filter => filteredCallback K dag count rootLeaf filter
            | none => unfilteredCallback K dag count rootLeaf
          let run := iterate callback (K.IterateDagFails dag) ⟨0, true⟩ (K.IterateDag dag)
          [.retrieveLeaf message.Root message.Root true, .buildDag message.Root true] ++ run.1 ++
            (match run.2 with
             | .ok => [.close]
             | .failed => [.errorMessage "Failed to download dag %e", .close]
             | .panicked => [.nilDereference])

/-! ## Reading a trace -/

/-- The `UploadMessage` of an event that wrote one. -/
def Event.upload? : Event → Option UploadMessage
  | .uploadMessage m => some m
  | _ => none

/-- The `UploadMessage`s written during a run, in order. -/
def uploads (trace : List Event) : List UploadMessage := trace.filterMap Event.upload?

/-- The event is a call of `handleRecievedDag`. -/
def Event.isHandleRecievedDag : Event → Bool
  | .handleRecievedDag _ _ => true
  | _ => false

/-- The event is a call of `WriteErrorToStream`. -/
def Event.isErrorMessage : Event → Bool
  | .errorMessage _ => true
  | _ => false

/-- The event is a call of `StoreLeaf`. -/
def Event.isStoreLeaf : Event → Bool
  | .storeLeaf _ _ => true
  | _ => false

/-- The event is a call of `GetBranch`. -/
def Event.isGetBranch : Event → Bool
  | .getBranch _ _ => true
  | _ => false

/-! ## A sample environment

A small in-memory store and stand-ins for the Merkle library, used to run the
handlers on concrete sessions. -/

/-- The label of a hash of the form "label:rest". -/
def sampleGetLabel (hash : Bytes) : Bytes := hash.takeWhile (fun c => decide (c ≠ 58))

/-- A leaf without content, of type "file", with the given hash and links. -/
def sampleLeaf (hash : Bytes) (links : List (Bytes × Bytes)) : DagLeaf :=
  { Hash := hash, ItemName := lit "item", LeafType := lit "file", ContentHash := none,
    Content := none, Links := links, LeafCount := 0, AdditionalData := [] }

/-- A parent-before-children traversal following `Links` from `hash`. -/
def sampleVisit (leafs : List (Bytes × DagLeaf)) :
    Nat → Bytes → Option DagLeaf → List (DagLeaf × Option DagLeaf)
  | 0, _, _ => []
  | fuel + 1, hash, parent =>
    match leafs.lookup hash with
    | none => []
    | some leaf =>
      (leaf, parent) ::
        (leaf.Links.map (fun l => sampleVisit leafs fuel l.2 (some leaf))).flatten

/-- The sample collaborators. The store is the list of the leaves stored so
far; a leaf verifies unless its item name is "tampered"; a branch proof exists
for a parent with more than one link; everybody is authorised, every write
succeeds, and `acks` gives the peer's acknowledgements. -/
def sampleK (acks : Nat → Bool) : Collaborators (List DagLeaf) where
  VerifyRootLeaf := fun l => decide (l.ItemName ≠ lit "tampered")
  VerifyLeaf := fun l => decide (l.ItemName ≠ lit "tampered")
  VerifyBranch := fun _ b => b.isSome
  GetBranch := fun parent label =>
    if parent.Links.length > 1 then some (some ⟨label⟩) else some none
  GetLabel := sampleGetLabel
  Verify := fun dag => (dag.Leafs.lookup dag.Root).isSome
  IterateDag := fun dag => sampleVisit dag.Leafs dag.Leafs.length dag.Root none
  IterateDagFails := fun _ => false
  StoreLeaf := fun s _ leaf => some (s ++ [leaf])
  RetrieveLeaf := fun s _ hash _ => s.find? (fun l => decide (l.Hash = hash))
  BuildDagFromStore := fun s root _ =>
    match s.find? (fun l => decide (l.Hash = root)) with
    | none => none
    | some _ => some ⟨root, s.map (fun l => (l.Hash, l))⟩
  canUploadDag := fun _ _ _ => true
  canDownloadDag := fun _ _ _ => true
  WriteResponseOk := fun _ => true
  EncodeOk := fun _ => true
  WaitForResponse := acks

/-- A stored DAG: the root "0:r" with four children labelled "3", "15", "7" and
"q", none of which has links. -/
def sampleFlatStore : List DagLeaf :=
  [ sampleLeaf (lit "0:r")
      [(lit "3", lit "3:a"), (lit "15", lit "15:b"), (lit "7", lit "7:c"), (lit "q", lit "q:d")],
    sampleLeaf (lit "3:a") [], sampleLeaf (lit "15:b") [], sampleLeaf (lit "7:c") [],
    sampleLeaf (lit "q:d") [] ]

/-- A stored DAG: the root "0:r" with the single child "1:m", which has the two
children "2:x" and "3:y". -/
def sampleChainStore : List DagLeaf :=
  [ sampleLeaf (lit "0:r") [(lit "1", lit "1:m")],
    sampleLeaf (lit "1:m") [(lit "2", lit "2:x"), (lit "3", lit "3:y")],
    sampleLeaf (lit "2:x") [], sampleLeaf (lit "3:y") [] ]

/-- A stored DAG: the root "0:r" with the children "1:m" and "4:n"; "1:m" has
the children "2:x" and "3:y". -/
def sampleTreeStore : List DagLeaf :=
  [ sampleLeaf (lit "0:r") [(lit "1", lit "1:m"), (lit "4", lit "4:n")],
    sampleLeaf (lit "1:m") [(lit "2", lit "2:x"), (lit "3", lit "3:y")],
    sampleLeaf (lit "2:x") [], sampleLeaf (lit "3:y") [], sampleLeaf (lit "4:n") [] ]

/-- The root leaf of `sampleTreeStore`. -/
def sampleTreeRoot : DagLeaf :=
  sampleLeaf (lit "0:r") [(lit "1", lit "1:m"), (lit "4", lit "4:n")]

/-- The DAG rebuilt from `sampleTreeStore`. -/
def sampleTreeDag : Dag := ⟨lit "0:r", sampleTreeStore.map (fun l => (l.Hash, l))⟩

/-- The leaves of `sampleTreeStore` other than the root, each with its parent,
in traversal order. -/
def sampleTreeRest : List (DagLeaf × DagLeaf) :=
  [ (sampleLeaf (lit "1:m") [(lit "2", lit "2:x"), (lit "3", lit "3:y")], sampleTreeRoot),
    (sampleLeaf (lit "2:x") [],
      sampleLeaf (lit "1:m") [(lit "2", lit "2:x"), (lit "3", lit "3:y")]),
    (sampleLeaf (lit "3:y") [],
      sampleLeaf (lit "1:m") [(lit "2", lit "2:x"), (lit "3", lit "3:y")]),
    (sampleLeaf (lit "4:n") [], sampleTreeRoot) ]

/-- The filter of the specification's example. -/
def sampleFilter : DownloadFilter :=
  { Leaves := [lit "3"], LeafRanges := [⟨lit "10", lit "20"⟩], IncludeContent := true }

/-- A download request for the root "0:r". -/
def sampleRequest (filter : Option DownloadFilter) : DownloadMessage :=
  { Root := lit "0:r", PublicKey := lit "pk", Signature := lit "sig", Filter := filter }

/-- An upload message for `leaf` in the DAG of root "0:r". -/
def sampleUpload (leaf : DagLeaf) (parent : Bytes) : UploadMessage :=
  { Root := lit "0:r", Count := 1, Leaf := leaf, Parent := parent, Branch := none,
    PublicKey := lit "pk", Signature := lit "sig" }

/-! ## Definitions used to state the properties -/

/-- The substring of `s` after its first `sep` byte (empty when there is none). -/
def afterFirst (sep : Nat) (s : Bytes) : Bytes := (s.dropWhile (fun c => decide (c ≠ sep))).tail

/-- The part of `s` between its first `sep` byte and the next one (or the end). -/
def segmentAfterFirst (sep : Nat) (s : Bytes) : Bytes :=
  (afterFirst sep s).takeWhile (fun c => decide (c ≠ sep))

/-! ## A sample leaf store -/

/-- An engine that accepts every tree name, key and value and stores a committed
tree also under its name followed by the version byte 1, the key graviton uses
for the first commit of a tree. (A later commit of the same tree uses the next
version number; in the examples, which are a few commits long, that key is no
tree name in use either.) -/
def sampleEngine : Engine where
  treeNameOk := fun _ => true
  keyOk := fun _ => true
  valueOk := fun _ => true
  versionKeys := fun _ n => [n ++ [1]]
  name_is_value := fun _ _ => rfl
  versionKeys_extend := fun _ n k hk => by
    rw [List.mem_singleton.mp hk]
    exact List.isPrefixOf_iff_prefix.mpr (List.prefix_append n [1])

instance : Encodable DagLeaf :=
  Encodable.ofLeftInverse
    (fun l => (l.Hash, l.ItemName, l.LeafType, l.ContentHash, l.Content, l.Links, l.LeafCount,
      l.AdditionalData))
    (fun t => ⟨t.1, t.2.1, t.2.2.1, t.2.2.2.1, t.2.2.2.2.1, t.2.2.2.2.2.1, t.2.2.2.2.2.2.1,
      t.2.2.2.2.2.2.2⟩)
    (fun _ => rfl)

instance : Encodable DagLeafData :=
  Encodable.ofLeftInverse (fun d => (d.PublicKey, d.Signature, d.Leaf))
    (fun t => ⟨t.1, t.2.1, t.2.2⟩) (fun _ => rfl)

instance : Encodable CacheData :=
  Encodable.ofLeftInverse (fun c => c.Keys) (fun k => ⟨k⟩) (fun _ => rfl)

/-- The byte strings of `bs` one after the other, each preceded by its length. -/
def frame : List Bytes → Bytes
  | [] => []
  | b :: bs => b.length :: (b ++ frame bs)

/-- The inverse of `frame`, reading at most `fuel` byte strings. -/
def unframe : Nat → Bytes → Option (List Bytes)
  | _, [] => some []
  | 0, _ :: _ => none
  | fuel + 1, n :: rest =>
    if n ≤ rest.length then
      match unframe fuel (rest.drop n) with
      | some bs => some (rest.take n :: bs)
      | none => none
    else none

/-- An optional byte string as a byte string. -/
def optionBytes : Option Bytes → Bytes
  | none => []
  | some b => 1 :: b

/-- The inverse of `optionBytes`. -/
def bytesOption : Bytes → Option (Option Bytes)
  | [] => some none
  | 1 :: b => some (some b)
  | _ => none

/-- A Go map from string to string as a list of byte strings: key, value, key,
value, and so on. -/
def flattenPairs : List (Bytes × Bytes) → List Bytes
  | [] => []
  | (k, v) :: rest => k :: v :: flattenPairs rest

/-- The inverse of `flattenPairs`. -/
def pairUp : List Bytes → Option (List (Bytes × Bytes))
  | [] => some []
  | [_] => none
  | k :: v :: rest =>
    match pairUp rest with
    | some ps => some ((k, v) :: ps)
    | none => none

/-- An integer as a byte string: a sign and the magnitude. -/
def intBytes : Int → Bytes
  | .ofNat n => [0, n]
  | .negSucc n => [1, n]

/-- The inverse of `intBytes`. -/
def bytesInt : Bytes → Option Int
  | [0, n] => some (.ofNat n)
  | [1, n] => some (.negSucc n)
  | _ => none

/-- A leaf record as the framed sequence of its fields. -/
def plainMarshalLeaf (d : DagLeafData) : Bytes :=
  frame [d.PublicKey, d.Signature, d.Leaf.Hash, d.Leaf.ItemName, d.Leaf.LeafType,
    optionBytes d.Leaf.ContentHash, optionBytes d.Leaf.Content,
    frame (flattenPairs d.Leaf.Links), intBytes d.Leaf.LeafCount,
    frame (flattenPairs d.Leaf.AdditionalData)]

/-- The inverse of `plainMarshalLeaf`. -/
def plainUnmarshalLeaf (b : Bytes) : Option DagLeafData :=
  match unframe b.length b with
  | some [pk, sig, hash, name, ty, ch, c, links, count, ad] =>
    match bytesOption ch, bytesOption c, unframe links.length links, bytesInt count,
        unframe ad.length ad with
    | some ch, some c, some links, some count, some ad =>
      match pairUp links, pairUp ad with
      | some links, some ad =>
        some ⟨pk, sig, ⟨hash, name, ty, ch, c, links, count, ad⟩⟩
      | _, _ => none
    | _, _, _, _, _ => none
  | _ => none

/-- The serialisation by framed fields as a `Codec`. -/
def plainCodec : Codec where
  marshalLeaf := plainMarshalLeaf
  unmarshalLeaf := plainUnmarshalLeaf
  marshalCache := fun c => frame [frame c.Keys]
  unmarshalCache := fun b =>
    match unframe b.length b with
    | some [keys] =>
      match unframe keys.length keys with
      | some keys => some ⟨keys⟩
      | none => none
    | _ => none
  leaf_roundtrip := by
    have hf : ∀ (bs : List Bytes) (fuel : Nat), (frame bs).length ≤ fuel →
        unframe fuel (frame bs) = some bs := by
      intro bs
      induction bs with
      | nil => intro fuel _; cases fuel <;> rfl
      | cons b bs ih =>
        intro fuel h
        cases fuel with
        | zero => simp [frame] at h
        | succ fuel =>
          have hlen : (frame bs).length ≤ fuel := by
            simp only [frame, List.length_cons, List.length_append] at h
            omega
          simp only [frame, unframe, List.length_append, Nat.le_add_right, if_true,
            List.drop_left, List.take_left, ih fuel hlen]
    have hp : ∀ ps : List (Bytes × Bytes), pairUp (flattenPairs ps) = some ps := by
      intro ps
      induction ps with
      | nil => rfl
      | cons p ps ih =>
        obtain ⟨k, v⟩ := p
        simp [flattenPairs, pairUp, ih]
    have ho : ∀ o : Option Bytes, bytesOption (optionBytes o) = some o := by
      intro o; cases o <;> rfl
    have hi : ∀ i : Int, bytesInt (intBytes i) = some i := by
      intro i; cases i <;> rfl
    intro d
    unfold plainUnmarshalLeaf plainMarshalLeaf
    rw [hf _ _ (Nat.le_refl _)]
    simp only [ho, hi, hp, hf _ _ (Nat.le_refl _)]
  cache_roundtrip := by
    have hf : ∀ (bs : List Bytes) (fuel : Nat), (frame bs).length ≤ fuel →
        unframe fuel (frame bs) = some bs := by
      intro bs
      induction bs with
      | nil => intro fuel _; cases fuel <;> rfl
      | cons b bs ih =>
        intro fuel h
        cases fuel with
        | zero => simp [frame] at h
        | succ fuel =>
          have hlen : (frame bs).length ≤ fuel := by
            simp only [frame, List.length_cons, List.length_append] at h
            omega
          simp only [frame, unframe, List.length_append, Nat.le_add_right, if_true,
            List.drop_left, List.take_left, ih fuel hlen]
    intro c
    simp only [hf _ _ (Nat.le_refl _)]

/-- A store on the computable serialisation, with the given cache configuration. -/
def plainStore (cacheConfig : List (Bytes × Bytes)) : GravitonStore :=
  ⟨sampleEngine, plainCodec, cacheConfig⟩

/-- A leaf record without content: hash, item name and owner key as given. -/
def plainRecord (hash itemName publicKey : Bytes) : DagLeafData :=
  { PublicKey := publicKey, Signature := lit "sig",
    Leaf := { Hash := hash, ItemName := itemName, LeafType := lit "file",
              ContentHash := none, Content := none, Links := [],
              LeafCount := 1, AdditionalData := [] } }

/-! ## Sequences of store calls and `QueryDag` (graviton.go) -/

/-- The committed state after a call of `StoreLeaf`. Every error return of
`StoreLeaf` comes before its one call of `graviton.Commit`, so a failing call
leaves the committed state as it was. -/
def afterStoreLeaf (st : GravitonStore) (db : Database) (root : Bytes) (leafData : DagLeafData) :
    Database :=
  match StoreLeaf st db root leafData with
  | .ok db' => db'
  | .error _ => db

/-- The committed state after a sequence of `StoreLeaf` calls, successful or
failing. -/
def storeAll (st : GravitonStore) (db : Database) (calls : List (Bytes × DagLeafData)) : Database :=
  calls.foldl (fun d c => afterStoreLeaf st d c.1 c.2) db

/-- The method `QueryDag`. The filter, a Go map from bucket to key, is given as
the list of its entries in the order the loop visits them. The only error the
method can return is that of `LoadSnapshot`, which is not modelled. -/
def QueryDag (st : GravitonStore) (db : Database) (filter : List (Bytes × Bytes)) :
    Except StoreError (List Bytes) :=
  .ok (filter.foldl (fun keys entry =>
    let bucket := entry.1
    let key := entry.2
    if (st.CacheConfig.lookup bucket).isSome then
      match GetTree st.engine db bucket with
      | .error _ => keys
      | .ok cacheTree =>
        if HasPrefix bucket (lit "npub") then
          match cacheTree.Get bucket with
          | .error _ => keys
          | .ok value =>
            match st.codec.unmarshalCache value with
            | some cacheData => keys ++ cacheData.Keys
            | none => keys
        else
          match cacheTree.Get key with
          | .error _ => keys
          | .ok value => keys ++ [value]
    else keys) [])

/-! ## Reaction content (kind7handler.go)

Go's `regexp` matches code points, so the content of a reaction is given here
as the sequence of its Unicode code points. -/

/-- The code point is in one of the ranges of `unicodeEmojiRegex`. -/
def isEmojiRune (c : Nat) : Bool :=
  (decide (0x1F600 ≤ c) && decide (c ≤ 0x1F64F)) ||
  (decide (0x1F300 ≤ c) && decide (c ≤ 0x1F5FF)) ||
  (decide (0x1F680 ≤ c) && decide (c ≤ 0x1F6FF)) ||
  (decide (0x1F700 ≤ c) && decide (c ≤ 0x1F77F)) ||
  (decide (0x1F780 ≤ c) && decide (c ≤ 0x1F7FF)) ||
  (decide (0x1F800 ≤ c) && decide (c ≤ 0x1F8FF)) ||
  (decide (0x1F900 ≤ c) && decide (c ≤ 0x1F9FF)) ||
  (decide (0x1FA00 ≤ c) && decide (c ≤ 0x1FA6F)) ||
  (decide (0x1FA70 ≤ c) && decide (c ≤ 0x1FAFF)) ||
  (decide (0x2600 ≤ c) && decide (c ≤ 0x26FF)) ||
  (decide (0x2700 ≤ c) && decide (c ≤ 0x27BF))

/-- The code point is in the class `[a-zA-Z0-9_+-]` of `customShortcodeRegex`. -/
def isShortcodeRune (c : Nat) : Bool :=
  (decide (97 ≤ c) && decide (c ≤ 122)) || (decide (65 ≤ c) && decide (c ≤ 90)) ||
  (decide (48 ≤ c) && decide (c ≤ 57)) || decide (c = 95) || decide (c = 43) || decide (c = 45)

/-- The call `unicodeEmojiRegex.MatchString(content)`: the pattern, one or more
code points of the ranges, is not anchored, so it matches as soon as the
content holds one such code point. -/
def matchUnicodeEmoji (content : List Nat) : Bool := content.any isEmojiRune

/-- The call `customShortcodeRegex.MatchString(content)` for the anchored pattern
`^:[a-zA-Z0-9_+-]+:$`: a colon, one or more code points of the class, a colon. -/
def matchCustomShortcode (content : List Nat) : Bool :=
  match content with
  | 58 :: rest =>
    match rest.reverse with
    | 58 :: name => !name.isEmpty && name.all isShortcodeRune
    | _ => false
  | _ => false

/-- The function `isValidEmoji`. -/
def isValidEmoji (content : List Nat) : Bool :=
  if matchUnicodeEmoji content then true else matchCustomShortcode content

/-- The function `isValidReactionContent`. -/
def isValidReactionContent (content : List Nat) : Bool :=
  if content = lit "+" ∨ content = lit "-" then true else isValidEmoji content

/-! ## More definitions used to state the properties -/

/-- The events of a run before its first `stream.Close()`. -/
def beforeClose (trace : List Event) : List Event :=
  trace.takeWhile (fun e => decide (e ≠ Event.close))

/-- The event is a call of `StoreLeaf` or `RetrieveLeaf` with a root other than
`root`. -/
def Event.usesOtherRoot (root : Bytes) : Event → Bool
  | .storeLeaf r _ => decide (r ≠ root)
  | .retrieveLeaf r _ _ => decide (r ≠ root)
  | _ => false

/-- A content is a valid emoji in the sense of the specification: it is not
empty and all its code points are emoji code points. -/
def allEmoji (content : List Nat) : Bool := !content.isEmpty && content.all isEmojiRune

/-! ## Sample store states and sessions -/

/-- A leaf record with inline content "c" under the content hash "h". -/
def plainContentRecord (hash itemName publicKey : Bytes) : DagLeafData :=
  { PublicKey := publicKey, Signature := lit "sig",
    Leaf := { Hash := hash, ItemName := itemName, LeafType := lit "file",
              ContentHash := some (lit "h"), Content := some (lit "c"), Links := [],
              LeafCount := 1, AdditionalData := [] } }

/-- The store holding the single root "r", named "a.txt". -/
def oneRootState : Database :=
  storeAll (plainStore []) emptyDatabase [(lit "r", plainRecord (lit "r") (lit "a.txt") (lit "pk"))]

/-- The store after the single call storing the root "r" named "a.root_index". -/
def indexNamedState : Database :=
  storeAll (plainStore []) emptyDatabase
    [(lit "r", plainRecord (lit "r") (lit "a.root_index") (lit "pk"))]

/-- A stored root leaf "0:r" with inline content "c". -/
def sampleContentRoot : DagLeaf :=
  { sampleLeaf (lit "0:r") [] with ContentHash := some (lit "h"), Content := some (lit "c") }

/-- A filter that selects no leaf and asks for leaves without content. -/
def sampleNoContentFilter : DownloadFilter :=
  { Leaves := [], LeafRanges := [], IncludeContent := false }

/-- An upload session for the root "0:r" whose second message names the root
"9:z" of another stored DAG. -/
def sampleForeignRootSession : List UploadMessage :=
  [ sampleUpload (sampleLeaf (lit "0:r") [(lit "1", lit "1:x")]) [],
    { sampleUpload (sampleLeaf (lit "1:x") []) (lit "9:z") with Root := lit "9:z" } ]

theorem Split_ne_nil (sep : Nat) (s : Bytes) : Split sep s ≠ [] := by
  induction s with
  | nil => simp [Split]
  | cons c cs ih =>
    unfold Split
    split
    · simp
    · split <;> simp

theorem Split_unfold (sep : Nat) (s : Bytes) :
    Split sep s = s.takeWhile (fun c => decide (c ≠ sep)) ::
      (if sep ∈ s then Split sep (afterFirst sep s) else []) := by
  induction s with
  | nil => simp [Split]
  | cons c cs ih =>
    by_cases h : c = sep
    · subst h
      simp [Split, afterFirst]
    · have h' : ¬ sep = c := fun e => h e.symm
      rw [Split, if_neg h, ih]
      simp [h, h', afterFirst, List.takeWhile, List.dropWhile]

theorem Split_length_gt_one (sep : Nat) (s : Bytes) :
    (Split sep s).length > 1 ↔ sep ∈ s := by
  rw [Split_unfold]
  by_cases h : sep ∈ s
  · have := Split_ne_nil sep (afterFirst sep s)
    simp [h, List.length_pos, this]
  · simp [h]

theorem Split_second (sep : Nat) (s : Bytes) (h : sep ∈ s) :
    (Split sep s).getD 1 [] = segmentAfterFirst sep s := by
  rw [Split_unfold, if_pos h, Split_unfold sep (afterFirst sep s)]
  simp [segmentAfterFirst]

/-- What `GetBucket` computes: the bucket of a leaf is "hkind:" followed by its
"hkind" tag when that tag is present and not "1"; otherwise, when the item name
contains a ".", the part of the item name between its first "." and the next
"." (or the end of the name); otherwise "directory" for a leaf of type
Directory and "file" for any other. A leaf without the "hkind" key is treated as
untagged. -/
theorem GetBucket_cases (leaf : DagLeaf) :
    GetBucket leaf =
      match (leaf.AdditionalData.lookup (lit "hkind")).filter (fun t => decide (t ≠ lit "1")) with
      | some tag => lit "hkind:" ++ tag
      | none =>
        if 46 ∈ leaf.ItemName then segmentAfterFirst 46 leaf.ItemName
        else if leaf.LeafType = DirectoryLeafType then lit "directory"
        else lit "file" := by
  have hname : (let split := Split 46 leaf.ItemName
      if split.length > 1 then split.getD 1 []
      else if leaf.LeafType = DirectoryLeafType then lit "directory"
      else lit "file") =
      (if 46 ∈ leaf.ItemName then segmentAfterFirst 46 leaf.ItemName
        else if leaf.LeafType = DirectoryLeafType then lit "directory"
        else lit "file") := by
    by_cases h : 46 ∈ leaf.ItemName
    · simp only [(Split_length_gt_one 46 leaf.ItemName).mpr h, if_true, if_pos h, Split_second 46 _ h]
    · have : ¬ (Split 46 leaf.ItemName).length > 1 := fun c => h ((Split_length_gt_one 46 _).mp c)
      simp only [this, if_false, if_neg h]
  unfold GetBucket
  cases hl : leaf.AdditionalData.lookup (lit "hkind") with
  | none => simpa [Option.filter] using hname
  | some t =>
    by_cases ht : t = lit "1"
    · simpa [Option.filter, ht] using hname
    · simp [Option.filter, ht]

/-- C10 (the code at the failing input): the untagged leaf named
"archive.tar.gz" is put in the bucket "tar". That is neither the substring after
the first ".", which is "tar.gz", nor the extension "gz" that
`GetKindFromItemName` of the same file reads from the name. -/
theorem GetBucket_not_suffix_after_first_dot :
    ({ sampleLeaf (lit "0:r") [] with ItemName := lit "archive.tar.gz" } :
        DagLeaf).AdditionalData.lookup (lit "hkind") = none ∧
    46 ∈ lit "archive.tar.gz" ∧
    afterFirst 46 (lit "archive.tar.gz") = lit "tar.gz" ∧
    GetBucket { sampleLeaf (lit "0:r") [] with ItemName := lit "archive.tar.gz" } = lit "tar" ∧
    GetBucket { sampleLeaf (lit "0:r") [] with ItemName := lit "archive.tar.gz" } ≠
      afterFirst 46 (lit "archive.tar.gz") ∧
    GetKindFromItemName (lit "archive.tar.gz") = lit "gz" ∧
    GetBucket { sampleLeaf (lit "0:r") [] with ItemName := lit "archive.tar.gz" } ≠
      GetKindFromItemName (lit "archive.tar.gz") := by
  decide

/-! ## `CheckFilter` -/

theorem rangeLoop_true_iff (n : Int) (rs : List LeafRange) :
    rangeLoop n rs = true ↔
      ∃ r ∈ rs, ∃ a b, Atoi r.From = some a ∧ Atoi r.To = some b ∧ a ≤ n ∧ n ≤ b := by
  induction rs with
  | nil => simp [rangeLoop]
  | cons r rest ih =>
    unfold rangeLoop
    cases hf : Atoi r.From with
    | none => simp [ih, hf]
    | some a =>
      cases ht : Atoi r.To with
      | none => simp [ih, hf, ht]
      | some b =>
        by_cases hin : n ≥ a ∧ n ≤ b
        · simp [hf, ht, hin]
        · simp only [hf, ht, if_neg hin, ih, List.mem_cons, exists_eq_or_imp]
          constructor
          · intro h; exact Or.inr h
          · rintro (⟨a', b', ha, hb, h1, h2⟩ | h)
            · simp only [Option.some.injEq] at ha hb
              subst ha hb
              exact absurd ⟨h1, h2⟩ hin
            · exact h

/-- C8: for a leaf with label `L` (whatever `GetLabel` computes from its hash),
`CheckFilter` answers true exactly when `L` is listed in `Leaves`, or `L` parses
as an integer `n` and some entry of `LeafRanges` has two bounds that parse with
`from ≤ n ≤ to` (an entry with a bound that does not parse never matters); it
returns an error exactly when `L` is not listed and does not parse, and then it
answers false. -/
theorem CheckFilter_spec (GetLabel : Bytes → Bytes) (leaf : DagLeaf) (F : DownloadFilter) :
    ((CheckFilter GetLabel leaf F).1 = true ↔
        GetLabel leaf.Hash ∈ F.Leaves ∨
        ∃ n, Atoi (GetLabel leaf.Hash) = some n ∧
          ∃ r ∈ F.LeafRanges, ∃ a b,
            Atoi r.From = some a ∧ Atoi r.To = some b ∧ a ≤ n ∧ n ≤ b) ∧
    ((CheckFilter GetLabel leaf F).2 = true ↔
        GetLabel leaf.Hash ∉ F.Leaves ∧ Atoi (GetLabel leaf.Hash) = none) ∧
    ((CheckFilter GetLabel leaf F).2 = true → (CheckFilter GetLabel leaf F).1 = false) := by
  unfold CheckFilter
  by_cases hmem : GetLabel leaf.Hash ∈ F.Leaves
  · simp [hmem]
  · cases hA : Atoi (GetLabel leaf.Hash) with
    | none => simp [hmem, hA]
    | some n => simp [hmem, hA, rangeLoop_true_iff]

/-! ## The leaf store: store and retrieve -/

theorem GetBucket_strip (leaf : DagLeaf) :
    GetBucket { leaf with Content := none } = GetBucket leaf := rfl

theorem uploadFinalize_store {σ : Type} (K : Collaborators σ) (first : UploadMessage) (s : σ) :
    (uploadFinalize K first s).store = s := by
  unfold uploadFinalize
  split
  · rfl
  · split <;> rfl

theorem uploadFinalize_handled {σ : Type} (K : Collaborators σ) (first : UploadMessage) (s : σ) :
    (uploadFinalize K first s).trace.countP Event.isHandleRecievedDag ≤ 1 ∧
    ∀ dag pk, Event.handleRecievedDag dag pk ∈ (uploadFinalize K first s).trace →
      K.BuildDagFromStore (uploadFinalize K first s).store first.Root true = some dag ∧
      K.Verify dag = true ∧ pk = first.PublicKey := by
  rw [uploadFinalize_store]
  unfold uploadFinalize
  cases hb : K.BuildDagFromStore s first.Root true with
  | none => simp [Event.isHandleRecievedDag]
  | some dag =>
    by_cases hv : K.Verify dag = true
    · simp only [hv, if_true]
      refine ⟨by simp [Event.isHandleRecievedDag, List.countP_cons], ?_⟩
      intro dag' pk hmem
      simp at hmem
      obtain ⟨rfl, rfl⟩ := hmem
      exact ⟨rfl, hv, rfl⟩
    · simp [hv, Event.isHandleRecievedDag]

theorem after_handled {σ : Type} (K : Collaborators σ) (first : UploadMessage)
    (pre : List Event) (r : Run σ)
    (hpre : ∀ e ∈ pre, e.isHandleRecievedDag = false)
    (hr : r.trace.countP Event.isHandleRecievedDag ≤ 1 ∧
      ∀ dag pk, Event.handleRecievedDag dag pk ∈ r.trace →
        K.BuildDagFromStore r.store first.Root true = some dag ∧
        K.Verify dag = true ∧ pk = first.PublicKey) :
    (r.after pre).trace.countP Event.isHandleRecievedDag ≤ 1 ∧
    ∀ dag pk, Event.handleRecievedDag dag pk ∈ (r.after pre).trace →
      K.BuildDagFromStore (r.after pre).store first.Root true = some dag ∧
      K.Verify dag = true ∧ pk = first.PublicKey := by
  have hzero : pre.countP Event.isHandleRecievedDag = 0 := by
    rw [List.countP_eq_zero]
    intro e he
    simp [hpre e he]
  constructor
  · simp only [Run.after, List.countP_append, hzero, zero_add]
    exact hr.1
  · intro dag pk hmem
    simp only [Run.after, List.mem_append] at hmem ⊢
    rcases hmem with hmem | hmem
    · have := hpre _ hmem
      simp [Event.isHandleRecievedDag] at this
    · exact hr.2 dag pk hmem

theorem uploadLoop_handled {σ : Type} (K : Collaborators σ) (first : UploadMessage)
    (msgs : List UploadMessage) : ∀ (s : σ) (leafCount : Nat),
    (uploadLoop K first s leafCount msgs).trace.countP Event.isHandleRecievedDag ≤ 1 ∧
    ∀ dag pk, Event.handleRecievedDag dag pk ∈ (uploadLoop K first s leafCount msgs).trace →
      K.BuildDagFromStore (uploadLoop K first s leafCount msgs).store first.Root true = some dag ∧
      K.Verify dag = true ∧ pk = first.PublicKey := by
  induction msgs with
  | nil =>
    intro s n
    unfold uploadLoop
    exact after_handled K first _ _ (by simp [Event.isHandleRecievedDag])
      (uploadFinalize_handled K first s)
  | cons message rest ih =>
    intro s n
    unfold uploadLoop
    split
    · exact after_handled K first _ _ (by simp [Event.isHandleRecievedDag])
        (uploadFinalize_handled K first s)
    split
    · exact after_handled K first _ _ (by simp [Event.isHandleRecievedDag])
        (uploadFinalize_handled K first s)
    split
    · exact after_handled K first _ _ (by simp [Event.isHandleRecievedDag])
        (uploadFinalize_handled K first s)
    split
    · simp [Event.isHandleRecievedDag]
    split
    · exact after_handled K first _ _ (by simp [Event.isHandleRecievedDag]) (ih _ _)
    · exact after_handled K first _ _ (by simp [Event.isHandleRecievedDag])
        (uploadFinalize_handled K first _)

/-- C2: in an upload session `handleRecievedDag` is called at most once, and a
call happens only with the DAG that `BuildDagFromStore` returned for the root of
the first message on the store as the session left it, that DAG having passed
`Verify`, and with the first message's public key; so there is no call when the
rebuild fails or the rebuilt DAG does not verify. -/
theorem upload_handleRecievedDag_once {σ : Type} (K : Collaborators σ) (s : σ)
    (incoming : List UploadMessage) :
    (uploadStreamHandler K s incoming).trace.countP Event.isHandleRecievedDag ≤ 1 ∧
    (∀ dag pk, Event.handleRecievedDag dag pk ∈ (uploadStreamHandler K s incoming).trace →
      ∃ first rest, incoming = first :: rest ∧
        K.BuildDagFromStore (uploadStreamHandler K s incoming).store first.Root true = some dag ∧
        K.Verify dag = true ∧ pk = first.PublicKey) ∧
    (∀ first rest, incoming = first :: rest →
      (∀ dag, K.BuildDagFromStore (uploadStreamHandler K s incoming).store first.Root true
          = some dag → K.Verify dag = false) →
      ∀ e ∈ (uploadStreamHandler K s incoming).trace, e.isHandleRecievedDag = false) := by
  have key : (uploadStreamHandler K s incoming).trace.countP Event.isHandleRecievedDag ≤ 1 ∧
      (∀ dag pk, Event.handleRecievedDag dag pk ∈ (uploadStreamHandler K s incoming).trace →
        ∃ first rest, incoming = first :: rest ∧
          K.BuildDagFromStore (uploadStreamHandler K s incoming).store first.Root true = some dag ∧
          K.Verify dag = true ∧ pk = first.PublicKey) := by
    cases incoming with
    | nil => simp [uploadStreamHandler, Event.isHandleRecievedDag]
    | cons message rest =>
      have hgoal : (uploadStreamHandler K s (message :: rest)).trace.countP
            Event.isHandleRecievedDag ≤ 1 ∧
          ∀ dag pk, Event.handleRecievedDag dag pk ∈
              (uploadStreamHandler K s (message :: rest)).trace →
            K.BuildDagFromStore (uploadStreamHandler K s (message :: rest)).store
              message.Root true = some dag ∧
            K.Verify dag = true ∧ pk = message.PublicKey := by
        simp only [uploadStreamHandler]
        split
        · simp [Event.isHandleRecievedDag]
        split
        · simp [Event.isHandleRecievedDag]
        split
        · simp [Event.isHandleRecievedDag]
        split
        · exact after_handled K message _ _ (by simp [Event.isHandleRecievedDag])
            (uploadLoop_handled K message rest _ _)
        · simp [Event.isHandleRecievedDag]
      exact ⟨hgoal.1, fun dag pk h => ⟨message, rest, rfl, hgoal.2 dag pk h⟩⟩
  refine ⟨key.1, key.2, ?_⟩
  intro first rest hinc hfail e he
  cases e with
  | handleRecievedDag dag pk =>
    obtain ⟨first', rest', hinc', hb, hv, -⟩ := key.2 dag pk he
    rw [hinc] at hinc'
    cases hinc'
    rw [hfail dag hb] at hv
    cases hv
  | _ => rfl

/-- C3: when the first message's leaf fails `VerifyRootLeaf` or `canUploadDag`
answers false, the session consists of one `ErrorMessage` followed by closing
the stream: `StoreLeaf` and `handleRecievedDag` are never called and the store
is unchanged. -/
theorem upload_root_rejected {σ : Type} (K : Collaborators σ) (s : σ)
    (message : UploadMessage) (rest : List UploadMessage)
    (h : K.VerifyRootLeaf message.Leaf = false ∨
      K.canUploadDag message.Leaf message.PublicKey message.Signature = false) :
    (∃ text, (uploadStreamHandler K s (message :: rest)).trace =
      [.errorMessage text, .close]) ∧
    (∀ e ∈ (uploadStreamHandler K s (message :: rest)).trace,
      e.isStoreLeaf = false ∧ e.isHandleRecievedDag = false) ∧
    (uploadStreamHandler K s (message :: rest)).store = s := by
  unfold uploadStreamHandler
  by_cases hv : K.VerifyRootLeaf message.Leaf = true
  · have hc : K.canUploadDag message.Leaf message.PublicKey message.Signature = false := by
      rcases h with h | h
      · rw [h] at hv; cases hv
      · exact h
    simp [hv, hc, Event.isStoreLeaf, Event.isHandleRecievedDag]
  · simp [hv, Event.isStoreLeaf, Event.isHandleRecievedDag]

/-- C3 at a concrete session: the first message carries a leaf that fails
`VerifyRootLeaf`. -/
theorem upload_root_rejected_witness :
    (∃ text, (uploadStreamHandler (sampleK (fun _ => true)) []
        [sampleUpload { sampleLeaf (lit "0:r") [] with ItemName := lit "tampered" } []]).trace =
      [.errorMessage text, .close]) ∧
    (∀ e ∈ (uploadStreamHandler (sampleK (fun _ => true)) []
        [sampleUpload { sampleLeaf (lit "0:r") [] with ItemName := lit "tampered" } []]).trace,
      e.isStoreLeaf = false ∧ e.isHandleRecievedDag = false) ∧
    (uploadStreamHandler (sampleK (fun _ => true)) []
        [sampleUpload { sampleLeaf (lit "0:r") [] with ItemName := lit "tampered" } []]).store = [] :=
  upload_root_rejected (sampleK (fun _ => true)) []
    (sampleUpload { sampleLeaf (lit "0:r") [] with ItemName := lit "tampered" } []) []
    (Or.inl (by decide))

/-- C1 (the code at the failing input): the peer uploads the one-leaf DAG "0:r"
and then a child message whose leaf fails `VerifyLeaf`. The handler sends the
error and closes the stream, yet goes on to rebuild the DAG and calls
`handleRecievedDag`. -/
theorem upload_failed_leaf_still_handled :
    (uploadStreamHandler (sampleK (fun _ => true)) []
      [sampleUpload (sampleLeaf (lit "0:r") []) [],
       sampleUpload { sampleLeaf (lit "1:x") [] with ItemName := lit "tampered" } (lit "0:r")]).trace
    = [.storeLeaf (lit "0:r") (sampleLeaf (lit "0:r") []),
       .responseMessage true,
       .errorMessage "Failed to verify leaf",
       .close,
       .buildDag (lit "0:r") true,
       .handleRecievedDag ⟨lit "0:r", [(lit "0:r", sampleLeaf (lit "0:r") [])]⟩ (lit "pk"),
       .close] := by
  decide

/-! ## The download session -/

theorem unfilteredCallback_leaf_ok {σ : Type} (K : Collaborators σ) (dag : Dag) (count : Int)
    (rootLeaf leaf parent : DagLeaf) (n : Nat)
    (hne : leaf.Hash ≠ dag.Root) (hv : K.VerifyLeaf leaf = true)
    (hbr : leaf.Links.length > 1 →
      ∃ b, K.GetBranch parent (K.GetLabel leaf.Hash) = some b ∧ K.VerifyBranch parent b = true)
    (henc : K.EncodeOk n = true) (hack : K.WaitForResponse n = true) :
    ∃ pre branch,
      unfilteredCallback K dag count rootLeaf ⟨n, true⟩ leaf (some parent) =
        ⟨pre ++ [.uploadMessage (leafMessage dag count leaf parent branch)], .ok, ⟨n + 1, true⟩⟩ ∧
      ∀ e ∈ pre, e.isErrorMessage = false ∧ e.upload? = none := by
  unfold unfilteredCallback
  simp only [if_neg hne, hv, not_true_eq_false, if_false]
  by_cases hl : leaf.Links.length > 1
  · obtain ⟨b, hg, hvb⟩ := hbr hl
    refine ⟨[.getBranch parent (K.GetLabel leaf.Hash)], b, ?_, ?_⟩
    · simp only [if_pos hl, hg, hvb, henc, hack, not_true_eq_false, if_false]
    · simp [Event.isErrorMessage, Event.upload?]
  · refine ⟨[], none, ?_, ?_⟩
    · simp only [if_neg hl, henc, hack, not_true_eq_false, if_false]
    · simp

theorem iterate_unfiltered_rest {σ : Type} (K : Collaborators σ) (dag : Dag) (count : Int)
    (rootLeaf : DagLeaf) (rest : List (DagLeaf × DagLeaf))
    (hrest : ∀ v ∈ rest, v.1.Hash ≠ dag.Root ∧ K.VerifyLeaf v.1 = true ∧
      (v.1.Links.length > 1 →
        ∃ b, K.GetBranch v.2 (K.GetLabel v.1.Hash) = some b ∧ K.VerifyBranch v.2 b = true))
    (henc : ∀ n, K.EncodeOk n = true) (hack : ∀ n, K.WaitForResponse n = true) :
    ∀ n,
      (iterate (unfilteredCallback K dag count rootLeaf) false ⟨n, true⟩
        (rest.map (fun v => (v.1, some v.2)))).2 = .ok ∧
      (∀ e ∈ (iterate (unfilteredCallback K dag count rootLeaf) false ⟨n, true⟩
        (rest.map (fun v => (v.1, some v.2)))).1, e.isErrorMessage = false) ∧
      List.Forall₂ (fun m v => m.Root = dag.Root ∧ m.Leaf = v.1 ∧ m.Parent = v.2.Hash)
        (uploads (iterate (unfilteredCallback K dag count rootLeaf) false ⟨n, true⟩
          (rest.map (fun v => (v.1, some v.2)))).1) rest := by
  induction rest with
  | nil => intro n; simp [iterate, uploads]
  | cons v rest ih =>
    intro n
    obtain ⟨hne, hv, hbr⟩ := hrest v (List.mem_cons_self _ _)
    obtain ⟨pre, branch, hstep, hpre⟩ :=
      unfilteredCallback_leaf_ok K dag count rootLeaf v.1 v.2 n hne hv hbr (henc n) (hack n)
    obtain ⟨ih1, ih2, ih3⟩ := ih (fun w hw => hrest w (List.mem_cons_of_mem _ hw)) (n + 1)
    have hup : uploads pre = [] := by
      unfold uploads
      rw [List.filterMap_eq_nil_iff]
      exact fun e he => (hpre e he).2
    simp only [List.map_cons, iterate, hstep]
    refine ⟨ih1, ?_, ?_⟩
    · intro e he
      simp only [List.mem_append, List.mem_singleton] at he
      rcases he with (he | rfl) | he
      · exact (hpre e he).1
      · rfl
      · exact ih2 e he
    · have : uploads ((pre ++ [Event.uploadMessage (leafMessage dag count v.1 v.2 branch)]) ++
          (iterate (unfilteredCallback K dag count rootLeaf) false ⟨n + 1, true⟩
            (rest.map (fun v => (v.1, some v.2)))).1) =
          leafMessage dag count v.1 v.2 branch ::
            uploads (iterate (unfilteredCallback K dag count rootLeaf) false ⟨n + 1, true⟩
              (rest.map (fun v => (v.1, some v.2)))).1 := by
        simp only [uploads, List.filterMap_append] at hup ⊢
        rw [hup]
        simp [Event.upload?]
      rw [this]
      exact List.Forall₂.cons ⟨rfl, rfl, rfl⟩ ih3

/-- C5: an unfiltered download in which the root is stored and authorised, the
DAG is rebuilt, every verification and branch computation succeeds, every write
succeeds and every acknowledgement is ok. The handler writes the root message
first (the stored root leaf, no parent, no branch), then one `UploadMessage` per
visited leaf in traversal order, each carrying the visited leaf itself and its
parent's hash; it calls `WriteErrorToStream` never and ends by closing the
stream. -/
theorem download_unfiltered_complete {σ : Type} (K : Collaborators σ) (s : σ)
    (message : DownloadMessage) (rootLeaf : DagLeaf) (dag : Dag) (root : DagLeaf)
    (rest : List (DagLeaf × DagLeaf))
    (hfilter : message.Filter = none)
    (hret : K.RetrieveLeaf s message.Root message.Root true = some rootLeaf)
    (hvr : K.VerifyRootLeaf rootLeaf = true)
    (hcan : K.canDownloadDag rootLeaf message.PublicKey message.Signature = true)
    (hbuild : K.BuildDagFromStore s message.Root true = some dag)
    (hiter : K.IterateDag dag = (root, none) :: rest.map (fun v => (v.1, some v.2)))
    (hnofail : K.IterateDagFails dag = false)
    (hroot : root.Hash = dag.Root) (hrootv : K.VerifyRootLeaf root = true)
    (hrest : ∀ v ∈ rest, v.1.Hash ≠ dag.Root ∧ K.VerifyLeaf v.1 = true ∧
      (v.1.Links.length > 1 →
        ∃ b, K.GetBranch v.2 (K.GetLabel v.1.Hash) = some b ∧ K.VerifyBranch v.2 b = true))
    (henc : ∀ n, K.EncodeOk n = true) (hack : ∀ n, K.WaitForResponse n = true) :
    (∃ tail, uploads (downloadStreamHandler K s (some message)) =
        rootMessage dag dag.Leafs.length rootLeaf :: tail ∧
      List.Forall₂ (fun m v => m.Root = dag.Root ∧ m.Leaf = v.1 ∧ m.Parent = v.2.Hash)
        tail rest) ∧
    (rootMessage dag dag.Leafs.length rootLeaf).Parent = [] ∧
    (rootMessage dag dag.Leafs.length rootLeaf).Branch = none ∧
    (∀ e ∈ downloadStreamHandler K s (some message), e.isErrorMessage = false) ∧
    (downloadStreamHandler K s (some message)).getLast? = some .close := by
  obtain ⟨h1, h2, h3⟩ :=
    iterate_unfiltered_rest K dag dag.Leafs.length rootLeaf rest hrest henc hack 1
  have hrootstep : unfilteredCallback K dag dag.Leafs.length rootLeaf ⟨0, true⟩ root none =
      ⟨[.uploadMessage (rootMessage dag dag.Leafs.length rootLeaf)], .ok, ⟨1, true⟩⟩ := by
    unfold unfilteredCallback
    simp [hroot, hrootv, henc 0, hack 0]
  have htrace : downloadStreamHandler K s (some message) =
      [.retrieveLeaf message.Root message.Root true, .buildDag message.Root true] ++
        ([.uploadMessage (rootMessage dag dag.Leafs.length rootLeaf)] ++
          (iterate (unfilteredCallback K dag dag.Leafs.length rootLeaf) false ⟨1, true⟩
            (rest.map (fun v => (v.1, some v.2)))).1) ++ [.close] := by
    simp only [downloadStreamHandler, hret, hvr, hcan, hbuild, hfilter, hiter, hnofail,
      not_true_eq_false, if_false, iterate, hrootstep, h1]
  refine ⟨⟨_, ?_, h3⟩, rfl, rfl, ?_, ?_⟩
  · rw [htrace]
    simp [uploads, List.filterMap_append, Event.upload?]
  · rw [htrace]
    intro e he
    simp only [List.mem_append, List.mem_cons, List.mem_singleton, List.not_mem_nil,
      or_false] at he
    rcases he with ((rfl | rfl) | (rfl | he)) | rfl
    · rfl
    · rfl
    · rfl
    · exact h2 e he
    · rfl
  · rw [htrace, List.getLast?_concat]

/-- C5 at a concrete DAG: the root "0:r" with the children "1:m" (itself the
parent of "2:x" and "3:y") and "4:n". -/
theorem download_unfiltered_complete_witness :
    (∃ tail, uploads (downloadStreamHandler (sampleK (fun _ => true)) sampleTreeStore
          (some (sampleRequest none))) =
        rootMessage sampleTreeDag sampleTreeDag.Leafs.length sampleTreeRoot :: tail ∧
      List.Forall₂ (fun m v => m.Root = sampleTreeDag.Root ∧ m.Leaf = v.1 ∧ m.Parent = v.2.Hash)
        tail sampleTreeRest) ∧
    (rootMessage sampleTreeDag sampleTreeDag.Leafs.length sampleTreeRoot).Parent = [] ∧
    (rootMessage sampleTreeDag sampleTreeDag.Leafs.length sampleTreeRoot).Branch = none ∧
    (∀ e ∈ downloadStreamHandler (sampleK (fun _ => true)) sampleTreeStore
        (some (sampleRequest none)), e.isErrorMessage = false) ∧
    (downloadStreamHandler (sampleK (fun _ => true)) sampleTreeStore
        (some (sampleRequest none))).getLast? = some .close :=
  download_unfiltered_complete (sampleK (fun _ => true)) sampleTreeStore (sampleRequest none)
    sampleTreeRoot sampleTreeDag sampleTreeRoot sampleTreeRest rfl (by decide) (by decide)
    (by decide) (by decide) (by decide) rfl (by decide) (by decide)
    (by
      intro v hv
      simp only [sampleTreeRest, List.mem_cons, List.mem_singleton, List.not_mem_nil,
        or_false] at hv
      rcases hv with rfl | rfl | rfl | rfl
      · exact ⟨by decide, by decide, fun _ => ⟨some ⟨lit "1"⟩, by decide, by decide⟩⟩
      · exact ⟨by decide, by decide, fun h => absurd h (by decide)⟩
      · exact ⟨by decide, by decide, fun h => absurd h (by decide)⟩
      · exact ⟨by decide, by decide, fun h => absurd h (by decide)⟩)
    (fun _ => rfl) (fun _ => rfl)

/-- C6 (the code at the failing input): the acknowledgement of the root message
is missing (`WaitForResponse` answers false for the first message). In an
unfiltered download the handler still sends the four children and reports no
error; in a filtered download it reports no error either. -/
theorem download_root_ack_missing_continues :
    ((uploads (downloadStreamHandler (sampleK (fun n => decide (n ≠ 0))) sampleFlatStore
        (some (sampleRequest none)))).map (fun m => m.Leaf.Hash) =
      [lit "0:r", lit "3:a", lit "15:b", lit "7:c", lit "q:d"] ∧
     ∀ e ∈ downloadStreamHandler (sampleK (fun n => decide (n ≠ 0))) sampleFlatStore
        (some (sampleRequest none)), e.isErrorMessage = false) ∧
    (downloadStreamHandler (sampleK (fun n => decide (n ≠ 0))) sampleFlatStore
        (some (sampleRequest (some sampleFilter)))).getLast? = some .close ∧
    ∀ e ∈ downloadStreamHandler (sampleK (fun n => decide (n ≠ 0))) sampleFlatStore
        (some (sampleRequest (some sampleFilter))), e.isErrorMessage = false := by
  decide

/-- C7 (the code at the failing input): a filtered download with the filter of
the specification's example, every verification, write and acknowledgement
succeeding. The leaves labelled "3" and "15" pass `CheckFilter`, yet only the
root is sent. -/
theorem download_filtered_sends_root_only :
    (CheckFilter sampleGetLabel (sampleLeaf (lit "3:a") []) sampleFilter).1 = true ∧
    (CheckFilter sampleGetLabel (sampleLeaf (lit "15:b") []) sampleFilter).1 = true ∧
    (uploads (downloadStreamHandler (sampleK (fun _ => true)) sampleFlatStore
        (some (sampleRequest (some sampleFilter))))).map (fun m => m.Leaf.Hash) = [lit "0:r"] ∧
    (downloadStreamHandler (sampleK (fun _ => true)) sampleFlatStore
        (some (sampleRequest (some sampleFilter)))).getLast? = some .close := by
  decide

/-- C9 (the code at the failing inputs): in the first DAG the root has four
children; each child is sent with its parent's hash but without a branch proof,
and `GetBranch` is never called. In the second DAG the root has the single child
"1:m", which has two links; `GetBranch` is called for it. -/
theorem download_branch_follows_leaf_links :
    (sampleLeaf (lit "0:r")
        [(lit "3", lit "3:a"), (lit "15", lit "15:b"), (lit "7", lit "7:c"),
         (lit "q", lit "q:d")]).Links.length = 4 ∧
    (uploads (downloadStreamHandler (sampleK (fun _ => true)) sampleFlatStore
        (some (sampleRequest none)))).map (fun m => (m.Leaf.Hash, m.Parent, m.Branch)) =
      [(lit "0:r", [], none), (lit "3:a", lit "0:r", none), (lit "15:b", lit "0:r", none),
       (lit "7:c", lit "0:r", none), (lit "q:d", lit "0:r", none)] ∧
    (∀ e ∈ downloadStreamHandler (sampleK (fun _ => true)) sampleFlatStore
        (some (sampleRequest none)), e.isGetBranch = false) ∧
    (sampleLeaf (lit "0:r") [(lit "1", lit "1:m")]).Links.length = 1 ∧
    Event.getBranch (sampleLeaf (lit "0:r") [(lit "1", lit "1:m")]) (lit "1") ∈
      downloadStreamHandler (sampleK (fun _ => true)) sampleChainStore
        (some (sampleRequest none)) := by
  decide

/-! ## The leaf store: non-root leaves, the root index and atomicity -/

/-- C12 (the code at the failing input): one successful `StoreLeaf` call on the
empty store, for the root "r" whose item name "a.root_index" makes "root_index"
its bucket. The root index then holds an entry for "r", while the value under
"r" in the bucket it names is that entry itself, which is no leaf record:
`RetrieveLeaf` reports a decoding error. -/
theorem root_index_entry_without_record :
    (∃ db', StoreLeaf (plainStore []) emptyDatabase (lit "r")
      (plainRecord (lit "r") (lit "a.root_index") (lit "pk")) = .ok db') ∧
    indexNamedState (lit "root_index") (lit "r") = some (lit "root_index") ∧
    (indexNamedState (lit "root_index") (lit "r")).bind plainUnmarshalLeaf = none ∧
    RetrieveLeaf (plainStore []) indexNamedState (lit "r") (lit "r") false = .error .decode :=
  ⟨⟨_, rfl⟩, by decide, by decide, rfl⟩

/-- C13 (the code at the failing input): `StoreLeaf` succeeds for the root "r"
named "b.root_index" with inline content. Of the writes of this one call the
content and the root index entry are in the committed store; the leaf record is
not: the bucket of the leaf holds the index entry under "r", and `RetrieveLeaf`
reports a decoding error. -/
theorem StoreLeaf_commit_drops_record :
    ∃ db', StoreLeaf (plainStore []) emptyDatabase (lit "r")
        (plainContentRecord (lit "r") (lit "b.root_index") (lit "pk")) = .ok db' ∧
      db' (lit "content") (lit "h") = some (lit "c") ∧
      db' (lit "root_index") (lit "r") = some (lit "root_index") ∧
      db' (GetBucket (plainContentRecord (lit "r") (lit "b.root_index") (lit "pk")).Leaf)
          (lit "r") ≠
        some (plainMarshalLeaf
          { plainContentRecord (lit "r") (lit "b.root_index") (lit "pk") with
            Leaf := { (plainContentRecord (lit "r") (lit "b.root_index") (lit "pk")).Leaf with
              Content := none } }) ∧
      RetrieveLeaf (plainStore []) db' (lit "r") (lit "r") false = .error .decode :=
  ⟨_, rfl, by decide, by decide, by decide, rfl⟩

/-- C14: a record whose leaf has a content hash but no inline content is
refused by `StoreLeaf` with the content-integrity error, whatever the store
state and the root, and the committed store stays as it was. -/
theorem StoreLeaf_content_hash_without_content (st : GravitonStore) (db : Database)
    (root : Bytes) (d : DagLeafData) (h : Bytes)
    (hh : d.Leaf.ContentHash = some h) (hc : d.Leaf.Content = none) :
    StoreLeaf st db root d = .error .contentIntegrity ∧
    afterStoreLeaf st db root d = db := by
  have h1 : StoreLeaf st db root d = .error .contentIntegrity := by
    unfold StoreLeaf
    simp [hh, hc]
  exact ⟨h1, by simp [afterStoreLeaf, h1]⟩

/-- C14 at a concrete record: content hash "h", no inline content. -/
theorem StoreLeaf_content_hash_without_content_witness :
    StoreLeaf (plainStore []) oneRootState (lit "r")
        { plainRecord (lit "x") (lit "part") (lit "pk") with
          Leaf := { (plainRecord (lit "x") (lit "part") (lit "pk")).Leaf with
            ContentHash := some (lit "h") } } = .error .contentIntegrity ∧
    afterStoreLeaf (plainStore []) oneRootState (lit "r")
        { plainRecord (lit "x") (lit "part") (lit "pk") with
          Leaf := { (plainRecord (lit "x") (lit "part") (lit "pk")).Leaf with
            ContentHash := some (lit "h") } } = oneRootState :=
  StoreLeaf_content_hash_without_content (plainStore []) oneRootState (lit "r") _ (lit "h")
    rfl rfl

/-- C15 (the code at the failing input): the owner "npub1" stores the root "r"
on the empty store and then the root "q". Both calls succeed; after each of them
the cache list stored for "npub1" is empty. -/
theorem owner_cache_stays_empty :
    ∃ db1 db2,
      StoreLeaf (plainStore []) emptyDatabase (lit "r")
        (plainRecord (lit "r") (lit "a.txt") (lit "npub1")) = .ok db1 ∧
      (db1 (lit "npub1") (lit "npub1")).bind plainCodec.unmarshalCache = some ⟨[]⟩ ∧
      StoreLeaf (plainStore []) db1 (lit "q")
        (plainRecord (lit "q") (lit "b.txt") (lit "npub1")) = .ok db2 ∧
      (db2 (lit "npub1") (lit "npub1")).bind plainCodec.unmarshalCache = some ⟨[]⟩ :=
  ⟨_, _, rfl, by decide, rfl, by decide⟩

/-- C16 (the code at the failing input): the bucket "txt" has a configured cache
field. `cacheKey` records the root "r" under the key "k" in the tree "cache:txt"
and the write is committed, but `QueryDag` looks the key up in the tree "txt"
and returns nothing. `StoreLeaf` itself never reaches this `cacheKey` call: for
a root leaf of a configured bucket it panics. -/
theorem QueryDag_misses_cache_entry :
    Commit sampleEngine emptyDatabase
        (cacheKey (plainStore [(lit "txt", lit "ItemName")]) emptyDatabase
          (lit "txt") (lit "k") (lit "r")) (lit "cache:txt") (lit "k") = some (lit "r") ∧
    QueryDag (plainStore [(lit "txt", lit "ItemName")])
        (Commit sampleEngine emptyDatabase
          (cacheKey (plainStore [(lit "txt", lit "ItemName")]) emptyDatabase
            (lit "txt") (lit "k") (lit "r"))) [(lit "txt", lit "k")] = .ok [] ∧
    StoreLeaf (plainStore [(lit "txt", lit "ItemName")]) emptyDatabase (lit "r")
        (plainRecord (lit "r") (lit "a.txt") (lit "pk")) = .error .panic :=
  ⟨by decide, rfl, rfl⟩

/-! ## Error messages and closing of the stream -/

theorem uploadFinalize_errors {σ : Type} (K : Collaborators σ) (first : UploadMessage) (s : σ) :
    (beforeClose (uploadFinalize K first s).trace).countP Event.isErrorMessage ≤ 1 := by
  unfold uploadFinalize
  split
  · simp [beforeClose, List.takeWhile, Event.isErrorMessage, List.countP_cons]
  · split <;> simp [beforeClose, List.takeWhile, Event.isErrorMessage, List.countP_cons]

/-- C18 (the code at the failing input): a filtered download with
`IncludeContent` false of a stored root leaf that has inline content "c". The
one message sent, the root's, carries the leaf with its content. -/
theorem download_filtered_root_keeps_content :
    sampleNoContentFilter.IncludeContent = false ∧
    (uploads (downloadStreamHandler (sampleK (fun _ => true)) [sampleContentRoot]
        (some (sampleRequest (some sampleNoContentFilter))))).map (fun m => m.Leaf.Content) =
      [some (lit "c")] := by
  decide

/-- C19 (the code at the failing input): the text "hi " followed by the emoji
U+1F600 is neither "+" nor "-", is not made up of emoji only and is no
shortcode, yet `isValidReactionContent` accepts it. -/
theorem reaction_text_with_emoji_accepted :
    ([104, 105, 32, 0x1F600] : List Nat) ≠ lit "+" ∧
    ([104, 105, 32, 0x1F600] : List Nat) ≠ lit "-" ∧
    allEmoji [104, 105, 32, 0x1F600] = false ∧
    matchCustomShortcode [104, 105, 32, 0x1F600] = false ∧
    isValidReactionContent [104, 105, 32, 0x1F600] = true := by
  decide

/-- C20 (the code at the failing input): the first message uploads and
authorises the root "0:r"; the second message carries the root "9:z" of another
stored DAG. The parent lookup and the `StoreLeaf` call for the second message
are made with "9:z". -/
theorem upload_child_uses_its_own_root :
    Event.retrieveLeaf (lit "9:z") (lit "9:z") false ∈
      (uploadStreamHandler (sampleK (fun _ => true)) [sampleLeaf (lit "9:z") []]
        sampleForeignRootSession).trace ∧
    Event.storeLeaf (lit "9:z") (sampleLeaf (lit "1:x") []) ∈
      (uploadStreamHandler (sampleK (fun _ => true)) [sampleLeaf (lit "9:z") []]
        sampleForeignRootSession).trace ∧
    (uploadStreamHandler (sampleK (fun _ => true)) [sampleLeaf (lit "9:z") []]
        sampleForeignRootSession).trace.any (Event.usesOtherRoot (lit "0:r")) = true := by
  decide

end Hornet
